import Mathlib

/-!
Shallow embedding of `src/linux/vr_host_interface.c` (contrail-vrouter, linux
host interface glue) and proofs about its specification claims.

Conventions:
* Machine unsigned arithmetic is modelled on `Nat`; where C unsigned wrap
  can actually occur (the fragment-size computation, 16-bit header fields)
  we take remainders explicitly (`% 2 ^ 32`, `% 2 ^ 16`).
* Kernel helpers that are external to this repository (`skb_segment`,
  `skb_checksum_help`, `ip_fast_csum`, `csum_tcpudp_magic`,
  `vr_generate_unique_ip_id`, the NUMA/sibling topology) are supplied as
  explicit parameters/environment records, so the embedded functions stay
  pure and executable.
-/

set_option autoImplicit false

namespace VrHostInterface

/-! ### CPU steering selector: `linux_get_rxq` (lines 422-485) -/

/-- CPU/NUMA topology, as consumed by `linux_get_rxq` through
`cpu_to_node`, `cpumask_of_node` and `cpu_sibling_mask`.  `sibling c c'`
is membership of `c'` in `cpu_sibling_mask(c)` (which in Linux contains
`c` itself). -/
structure Topology where
  nr_cpu_ids : Nat
  node_of : Nat → Nat
  sibling : Nat → Nat → Bool

/-- The candidate CPU mask built by `linux_get_rxq`:
`cpumask_andnot(&noht_cpumask, node_cpumask, cpu_sibling_mask(curr_cpu))`,
then, when `prev_cpu && prev_cpu <= nr_cpu_ids`, also
`cpumask_andnot(&noht_cpumask, &noht_cpumask, cpu_sibling_mask(prev_cpu-1))`.
The list enumerates the mask in increasing CPU id order, exactly the order
`for_each_cpu` traverses the bitmap. -/
def rxq_candidates (t : Topology) (curr_cpu prev_cpu : Nat) : List Nat :=
  let node_mask := (List.range t.nr_cpu_ids).filter
      (fun c => t.node_of c == t.node_of curr_cpu)
  let noht := node_mask.filter (fun c => !(t.sibling curr_cpu c))
  if 0 < prev_cpu ∧ prev_cpu ≤ t.nr_cpu_ids then
    noht.filter (fun c => !(t.sibling (prev_cpu - 1) c))
  else noht

/-- `linux_get_rxq` (the value stored into `*rxq`).  `rxhash` is
`skb_get_rxhash(skb)`, a 32-bit value.  When the mask is non-empty the
code walks the mask with `for_each_cpu` to the `next_cpu`-th set bit,
falling back to `curr_cpu` if the walk runs off the end (`cpu >=
nr_cpu_ids`, the "shouldn't happen" branch) -- modelled by `Option.getD`.
When the mask is empty, `curr_cpu` is returned. -/
def linux_get_rxq (t : Topology) (rxhash curr_cpu prev_cpu : Nat) : Nat :=
  let mask := rxq_candidates t curr_cpu prev_cpu
  let num_cpus := mask.length
  if num_cpus ≠ 0 then
    (mask.get? (rxhash * num_cpus / 2 ^ 32)).getD curr_cpu
  else curr_cpu

/-- Concrete 4-CPU single-node topology where each CPU is its own only
hyperthread sibling (used to instantiate witness theorems). -/
def topoW : Topology :=
  { nr_cpu_ids := 4, node_of := fun _ => 0, sibling := fun a b => a == b }

/-! ### NAPI poll: `vr_napi_poll` (lines 1344-1371) -/

/-- The dequeue/GRO loop of `vr_napi_poll`: repeatedly `skb_dequeue` from
the input queue, hand the packet to `napi_gro_receive`, increment `quota`,
and break once `quota == budget`.  Returns the final `quota`, the packets
processed (in processing order) and the queue left behind. -/
def napi_loop {α : Type} (budget : Nat) : Nat → List α → Nat × List α × List α
  | quota, [] => (quota, [], [])
  | quota, skb :: rest =>
    let quota' := quota + 1
    if quota' = budget then (quota', [skb], rest)
    else
      let r := napi_loop budget quota' rest
      (r.1, skb :: r.2.1, r.2.2)

/-- `vr_napi_poll`: run the loop with `quota = 0`; if `quota != budget`
afterwards, call `napi_complete` and return 0 ("queue drained"), else
return `budget` ("work remains").  Result: (return value, whether
`napi_complete` was signalled, packets processed, remaining queue). -/
def vr_napi_poll {α : Type} (budget : Nat) (queue : List α) :
    Nat × Bool × List α × List α :=
  let r := napi_loop budget 0 queue
  if r.1 ≠ budget then (0, true, r.2.1, r.2.2)
  else (budget, false, r.2.1, r.2.2)

/-! ### Packet conversion: `linux_get_packet` (lines 728-768) -/

/-- Drop reasons used by this file (`vr_pfree` reason codes). -/
inductive DropReason where
  | invalid_packet
  | misc
  deriving DecidableEq, Repr

/-- The fields of an incoming `sk_buff` read by `linux_get_packet`:
offsets of tail, data and end pointers from `skb->head`, `skb_headlen`,
and whether `ip_summed == CHECKSUM_PARTIAL`. -/
structure SkbView where
  tail_off : Nat
  data_off : Nat
  end_off : Nat
  headlen : Nat
  csum_offload : Bool
  deriving DecidableEq, Repr

/-- The `vr_packet` fields assigned by `linux_get_packet`. -/
structure VrPacket where
  vp_tail : Nat
  vp_data : Nat
  vp_end : Nat
  vp_len : Nat
  vp_flag_csum : Bool
  deriving DecidableEq, Repr

/-- `linux_get_packet`: each offset is checked against
`1 << (sizeof(field) * 8)` (field byte-sizes are parameters `szTail`,
`szData`, `szEnd`, since `struct vr_packet` is declared outside this
repository); an over-large offset drops the packet with
`VP_DROP_INVALID_PACKET` and returns NULL, otherwise the offsets are
stored verbatim. -/
def linux_get_packet (szTail szData szEnd : Nat) (skb : SkbView) :
    Except DropReason VrPacket :=
  if 2 ^ (8 * szTail) ≤ skb.tail_off then .error .invalid_packet
  else if 2 ^ (8 * szData) ≤ skb.data_off then .error .invalid_packet
  else if 2 ^ (8 * szEnd) ≤ skb.end_off then .error .invalid_packet
  else .ok { vp_tail := skb.tail_off, vp_data := skb.data_off,
             vp_end := skb.end_off, vp_len := skb.headlen,
             vp_flag_csum := skb.csum_offload }

/-- Concrete skb view for witness theorems. -/
def skbW : SkbView :=
  { tail_off := 1600, data_off := 64, end_off := 2048, headlen := 1536,
    csum_offload := false }

/-! ### GSO size adjustment in `linux_gso_xmit` (lines 364-395) -/

def IPPROTO_TCP : Nat := 6
def IPPROTO_UDP : Nat := 17

/-- Fields of the GSO packet read by the size-adjustment code in
`linux_gso_xmit`: the (16-bit) `skb_shinfo(skb)->gso_size`, `skb->mac_len`,
`skb_network_header_len(skb)`, the TCP data offset `th->doff`, and the
inner IP protocol. -/
structure GsoPkt where
  gso_size : Nat
  mac_len : Nat
  net_hlen : Nat
  tcp_doff : Nat
  protocol : Nat
  deriving DecidableEq, Repr

/-- The local `seg_size` computed by `linux_gso_xmit`:
`seg_size = gso_size; seg_size += mac_len + network_header_len;` and, for
TCP only, `seg_size += th->doff * 4`.  `seg_size` is a C
`unsigned short`, hence the `% 2 ^ 16`. -/
def gso_seg_size (p : GsoPkt) : Nat :=
  let s := (p.gso_size + p.mac_len + p.net_hlen) % 2 ^ 16
  if p.protocol = IPPROTO_TCP then (s + p.tcp_doff * 4) % 2 ^ 16 else s

/-- The `gso_size` value left in `skb_shinfo(skb)` by `linux_gso_xmit`
before it calls `skb_gso_segment`: if `seg_size > mtu + hard_header_len`,
shrink by the overshoot (16-bit wrap-around subtraction on the `gso_size`
field), and for UDP clear the low 3 bits (`&= ~7`). -/
def gso_adjusted_size (p : GsoPkt) (mtu hhl : Nat) : Nat :=
  let ss := gso_seg_size p
  if mtu + hhl < ss then
    let g := (p.gso_size + (2 ^ 16 - (ss - mtu - hhl))) % 2 ^ 16
    if p.protocol = IPPROTO_UDP then g / 8 * 8 else g
  else p.gso_size

/-- Concrete GSO packet for witness theorems (TCP, standard headers). -/
def gsoW : GsoPkt :=
  { gso_size := 1400, mac_len := 14, net_hlen := 20, tcp_doff := 5,
    protocol := 6 }

/-! ### Batch transmission: `linux_xmit_segments` (lines 317-341) -/

/-- `linux_xmit_segments`: walk the segment list in order, calling
`linux_xmit_segment` (whose per-segment result is abstracted as `f`); on
the first non-zero result stop and free every remaining segment.  Returns
(error of the first failing segment, or 0; the segments handed to
transmission before the failure; the segments freed).  The C `do/while`
requires a non-empty list; on `[]` the model returns `(0, [], [])`. -/
def linux_xmit_segments {α : Type} (f : α → Int) : List α → Int × List α × List α
  | [] => (0, [], [])
  | s :: rest =>
    if f s = 0 then
      let r := linux_xmit_segments f rest
      (r.1, s :: r.2.1, r.2.2)
    else (f s, [], rest)

/-! ### Fragment header stamping in `linux_inet_fragment` (lines 223-233) -/

/-- One segment produced by `skb_segment`, as read by the stamping loop:
`skb->len`, `skb->mac_len` and the IP header length field `ip->ihl`. -/
structure FragSeg where
  len : Nat
  mac_len : Nat
  ihl : Nat
  deriving DecidableEq, Repr

/-- The IP payload bytes a segment carries:
`skb->len - skb->mac_len - ip->ihl * 4` (the quantity the loop adds to
`offset`; never wraps for real segments, which contain their own
headers). -/
def seg_payload (s : FragSeg) : Nat := s.len - s.mac_len - s.ihl * 4

/-- The IP header fields written by the stamping loop, plus `off_bytes`,
the value of the loop's `offset` variable when this fragment was stamped,
and `mf`, whether the `IP_MF` bit was OR-ed in. -/
structure FragHdr where
  ip_id : Nat
  off_bytes : Nat
  mf : Bool
  frag_field : Nat
  tot_len : Nat
  check : Nat
  deriving DecidableEq, Repr

/-- The `do { ... } while ((skb = skb->next))` stamping loop of
`linux_inet_fragment`: for each segment stamp `ip->id = htons(ip_id)`,
`ip->frag_off = htons(offset >> 3)` OR-ed with `htons(IP_MF)` when the
segment has a successor or the original packet was already a fragment,
advance `offset` by the segment's IP payload length, set
`ip->tot_len = htons(skb->len - skb->mac_len)` and store
`ip->check = ip_fast_csum(...)` computed (abstractly, via the `csum`
parameter) over the updated header with the checksum field zeroed. -/
def stamp_frags (csum : FragSeg → Nat → Nat → Nat → Nat) (ip_id : Nat)
    (fragmented : Bool) : Nat → List FragSeg → List FragHdr
  | _, [] => []
  | off, s :: rest =>
    let mf : Bool := !rest.isEmpty || fragmented
    let ff := off / 8 % 2 ^ 16 ||| (if mf then 0x2000 else 0)
    let tl := (s.len - s.mac_len) % 2 ^ 16
    let hdr : FragHdr :=
      { ip_id := ip_id % 2 ^ 16, off_bytes := off, mf := mf, frag_field := ff,
        tot_len := tl, check := csum s (ip_id % 2 ^ 16) ff tl }
    hdr :: stamp_frags csum ip_id fragmented (off + seg_payload s) rest

/-- Trivial checksum function used to instantiate witness theorems. -/
def csumZero : FragSeg → Nat → Nat → Nat → Nat := fun _ _ _ _ => 0

/-- Concrete segment list for witness theorems. -/
def segsW : List FragSeg :=
  [{ len := 1514, mac_len := 14, ihl := 5 },
   { len := 1514, mac_len := 14, ihl := 5 },
   { len := 234, mac_len := 14, ihl := 5 }]

/-! ### Fragment size computation in `linux_inet_fragment` (lines 161-193) -/

/-- 32-bit unsigned subtraction (both arguments below `2 ^ 32`). -/
def u32sub (a b : Nat) : Nat := (a + 2 ^ 32 - b % 2 ^ 32) % 2 ^ 32

/-- `frag_size = skb->dev->mtu - skb->mac_len - ip_hlen; frag_size &= ~7U;`
(unsigned int arithmetic). -/
def frag_size0 (mtu mac_len ip_hlen : Nat) : Nat :=
  u32sub (u32sub mtu mac_len) ip_hlen / 8 * 8

/-- The final fragment size of `linux_inet_fragment`: starting from
`frag_size0`, when the last fragment would be non-empty but shorter than
64 bytes, shrink by `(64 - last_frag_len) / num_frags`, subtract one more
(the division may have produced 0) and re-align down to a multiple of 8. -/
def linux_frag_size (mtu mac_len ip_hlen payload_size : Nat) : Nat :=
  let fs := frag_size0 mtu mac_len ip_hlen
  let num_frags := payload_size / fs
  let last_frag_len := payload_size % fs
  if last_frag_len ≠ 0 ∧ last_frag_len < 64 then
    u32sub (u32sub fs ((64 - last_frag_len) / num_frags)) 1 / 8 * 8
  else fs

/-- The IP payload sizes of the fragments `skb_segment` produces when the
packet is split at `gso_size = fs`: full chunks of `fs` bytes followed by
the remainder, if any. -/
def frag_payloads (fs payload : Nat) : List Nat :=
  List.replicate (payload / fs) fs ++
    (if payload % fs ≠ 0 then [payload % fs] else [])

/-! ### `linux_inet_fragment` control flow (lines 156-237) -/

/-- The fields of the skb read by `linux_inet_fragment`. `frag_off_raw`
is `ntohs(ip->frag_off)` (16-bit field holding flags and the 13-bit
offset); `csum_offload` is `ip_summed == CHECKSUM_PARTIAL`. -/
structure SkbIn where
  len : Nat
  mac_len : Nat
  ihl : Nat
  frag_off_raw : Nat
  ip_id : Nat
  csum_offload : Bool
  mtu : Nat
  deriving DecidableEq, Repr

/-- Results of the external kernel helpers `linux_inet_fragment` calls:
whether `skb_checksum_help` succeeds, the outcome of `skb_segment`
(error code or segment list), the abstract `ip_fast_csum`, and the
per-stamped-segment result of `linux_xmit_segment` used by
`linux_xmit_segments`. -/
structure FragEnv where
  csum_help_ok : Bool
  seg_result : Except Int (List FragSeg)
  ip_fast_csum : FragSeg → Nat → Nat → Nat → Nat
  xmit1 : FragHdr → Int

/-- Observable outcome of `linux_inet_fragment`: the returned value,
whether the original skb was freed, the stamped segment headers handed to
`linux_xmit_segments` (empty when nothing was handed over), and the
computed fragment size. -/
structure InetFragOut where
  ret : Int
  orig_freed : Bool
  xmit_segs : List FragHdr
  frag_size : Nat

/-- `linux_inet_fragment`: compute the fragment size; if the packet asked
for checksum offload and `skb_checksum_help` fails, `kfree_skb(skb);
return 0;`.  Then `skb_segment`: on `IS_ERR(segs)` the error is returned
*without* freeing the original skb; on success the original is freed, the
fragments are stamped and handed to `linux_xmit_segments`. -/
def linux_inet_fragment (env : FragEnv) (skb : SkbIn) : InetFragOut :=
  let ip_hlen := skb.ihl * 4
  let fragmented : Bool := (skb.frag_off_raw &&& 0x2000) != 0
  let offset := (skb.frag_off_raw &&& 0x1FFF) * 8
  let payload_size := u32sub (u32sub skb.len skb.mac_len) ip_hlen
  let fs := linux_frag_size skb.mtu skb.mac_len ip_hlen payload_size
  if skb.csum_offload && !env.csum_help_ok then
    { ret := 0, orig_freed := true, xmit_segs := [], frag_size := fs }
  else
    match env.seg_result with
    | .error e =>
        { ret := e, orig_freed := false, xmit_segs := [], frag_size := fs }
    | .ok segs =>
        let stamped := stamp_frags env.ip_fast_csum skb.ip_id fragmented
            offset segs
        { ret := (linux_xmit_segments env.xmit1 stamped).1,
          orig_freed := true, xmit_segs := stamped, frag_size := fs }

/-- Environment in which `skb_segment` fails with `-ENOMEM` (C5 input). -/
def envC5 : FragEnv :=
  { csum_help_ok := true, seg_result := .error (-12), ip_fast_csum := csumZero,
    xmit1 := fun _ => 0 }

/-- Oversized plain skb used with `envC5`. -/
def skbC5 : SkbIn :=
  { len := 2000, mac_len := 14, ihl := 5, frag_off_raw := 0, ip_id := 42,
    csum_offload := false, mtu := 1500 }

/-- Environment in which `skb_checksum_help` fails (C6 input). -/
def envC6 : FragEnv :=
  { csum_help_ok := false, seg_result := .ok [], ip_fast_csum := csumZero,
    xmit1 := fun _ => 0 }

/-- Oversized skb that requested checksum offload, used with `envC6`. -/
def skbC6 : SkbIn :=
  { len := 2000, mac_len := 14, ihl := 5, frag_off_raw := 0, ip_id := 42,
    csum_offload := true, mtu := 1500 }

/-! ### Tunnel finalizer: `linux_xmit_segment` (lines 256-315) -/

/-- `vr_packet` type tag, only compared against `VP_TYPE_IPOIP` here. -/
inductive VrPktType where
  | ipoip
  | ip
  | null
  | other
  deriving DecidableEq, Repr

def ETH_HLEN : Nat := 14
def VR_IP_PROTO_UDP : Nat := 17
def VR_IP_PROTO_GRE : Nat := 47

/-- The segment fields `linux_xmit_segment` reads and writes.
`pullable` bounds what `pskb_may_pull` can make available (the total skb
length); `headlen` is `skb_headlen`, checked by `skb_partial_csum_set`. -/
structure Seg where
  len : Nat
  pullable : Nat
  headlen : Nat
  ip_proto : Nat
  ip_hl : Nat
  ip_id : Nat
  ip_len : Nat
  ip_csum : Nat
  udp_len : Nat
  udp_check : Nat
  deriving DecidableEq, Repr

/-- External helpers used by `linux_xmit_segment`:
`vr_generate_unique_ip_id()`, `ip_fast_csum` over the (updated) IP header
of a segment, and `~csum_tcpudp_magic(saddr, daddr, len, IPPROTO_UDP, 0)`. -/
structure XmitEnv where
  gen_ip_id : Nat
  ip_csum_of : Seg → Nat
  udp_magic : Seg → Nat

/-- Outcome of `linux_xmit_segment`: handed to `linux_xmit` untouched,
handed to `linux_xmit` after the tunnel header/checksum fix-up, or freed
with an error return. -/
inductive SegOutcome where
  | toXmit (s : Seg)
  | fixedXmit (s : Seg)
  | dropped (err : Int)
  deriving DecidableEq, Repr

/-- `linux_xmit_segment`: segments still larger than `mtu +
hard_header_len`, or not of type `VP_TYPE_IPOIP`, go straight to
`linux_xmit`.  Otherwise the tunnel fix-up runs: header-room checks
(`pskb_may_pull`, modelled as bounds against `pullable`;
`skb_partial_csum_set`, modelled as a bound against `headlen`) drop the
segment with `-ENOMEM`; the IP total length and a fresh unique IP id are
stamped; UDP tunnels get the partial-checksum setup and GRE tunnels a
recomputed IP checksum. -/
def linux_xmit_segment (env : XmitEnv) (mtu hhl : Nat) (ptype : VrPktType)
    (seg : Seg) : SegOutcome :=
  if mtu + hhl < seg.len ∨ ptype ≠ VrPktType.ipoip then .toXmit seg
  else if seg.pullable < ETH_HLEN + 20 then .dropped (-12)
  else
    let iphlen := seg.ip_hl * 4
    let s1 : Seg := { seg with ip_len := (seg.len - ETH_HLEN) % 2 ^ 16,
                               ip_id := env.gen_ip_id % 2 ^ 16 }
    if seg.pullable < ETH_HLEN + iphlen then .dropped (-12)
    else if s1.ip_proto = VR_IP_PROTO_UDP then
      if seg.pullable < ETH_HLEN + iphlen + 8 then .dropped (-12)
      else if seg.headlen < ETH_HLEN + iphlen + 8 then .dropped (-12)
      else
        let s2 : Seg := { s1 with ip_csum := 0,
                                  udp_len := (seg.len - (iphlen + ETH_HLEN)) % 2 ^ 16 }
        let s3 : Seg := { s2 with ip_csum := env.ip_csum_of s2 }
        .fixedXmit { s3 with udp_check := env.udp_magic s3 }
    else if s1.ip_proto = VR_IP_PROTO_GRE then
      let s2 : Seg := { s1 with ip_csum := 0 }
      .fixedXmit { s2 with ip_csum := env.ip_csum_of s2 }
    else .fixedXmit s1

/-- Concrete finalizer environment for the C4 theorems. -/
def envC4 : XmitEnv :=
  { gen_ip_id := 7, ip_csum_of := fun _ => 0, udp_magic := fun _ => 0 }

/-- An IPOIP segment larger than `mtu + hard_header_len` (1500 + 14). -/
def segBig : Seg :=
  { len := 2000, pullable := 2000, headlen := 2000, ip_proto := 17,
    ip_hl := 5, ip_id := 1, ip_len := 0, ip_csum := 0, udp_len := 0,
    udp_check := 0 }

/-- An IPOIP segment that fits in `mtu + hard_header_len`, with an inner
protocol that is neither UDP nor GRE. -/
def segSmall : Seg :=
  { len := 200, pullable := 200, headlen := 200, ip_proto := 4,
    ip_hl := 5, ip_id := 1, ip_len := 0, ip_csum := 0, udp_len := 0,
    udp_check := 0 }

/-! ## Theorems -/

/-- C1: `linux_get_rxq` computes the candidate set as the cores on the
NUMA node of the current core minus hyperthread siblings of the current
core and, when a previous core is supplied (encoded as `prev_cpu =
previous + 1`, in range), minus the siblings of the previous core; on a
non-empty set it returns the element at index
`floor(flow_hash * |candidates| / 2 ^ 32)` of the stable (increasing-id)
enumeration, and on an empty set the current core; the result is never a
sibling of the current core, nor of the previous core when supplied.
Determinism is immediate: the embedding is a pure function. -/
theorem linux_get_rxq_spec (t : Topology) (rxhash curr_cpu prev_cpu : Nat)
    (hh : rxhash < 2 ^ 32) :
    (rxq_candidates t curr_cpu prev_cpu = [] →
        linux_get_rxq t rxhash curr_cpu prev_cpu = curr_cpu) ∧
    (rxq_candidates t curr_cpu prev_cpu ≠ [] →
        (rxq_candidates t curr_cpu prev_cpu).get?
            (rxhash * (rxq_candidates t curr_cpu prev_cpu).length / 2 ^ 32) =
          some (linux_get_rxq t rxhash curr_cpu prev_cpu) ∧
        t.sibling curr_cpu (linux_get_rxq t rxhash curr_cpu prev_cpu) = false ∧
        (0 < prev_cpu ∧ prev_cpu ≤ t.nr_cpu_ids →
          t.sibling (prev_cpu - 1) (linux_get_rxq t rxhash curr_cpu prev_cpu)
            = false)) := by
  constructor
  · intro hempty
    simp [linux_get_rxq, hempty]
  · intro hne
    have hlen : 0 < (rxq_candidates t curr_cpu prev_cpu).length :=
      List.length_pos.mpr hne
    have hidx : rxhash * (rxq_candidates t curr_cpu prev_cpu).length / 2 ^ 32 <
        (rxq_candidates t curr_cpu prev_cpu).length := by
      rw [Nat.div_lt_iff_lt_mul (by norm_num : 0 < 2 ^ 32)]
      calc rxhash * (rxq_candidates t curr_cpu prev_cpu).length
          < 2 ^ 32 * (rxq_candidates t curr_cpu prev_cpu).length := by
            exact Nat.mul_lt_mul_of_lt_of_le hh (Nat.le_refl _) hlen
        _ = (rxq_candidates t curr_cpu prev_cpu).length * 2 ^ 32 :=
            Nat.mul_comm _ _
    have hnz : (rxq_candidates t curr_cpu prev_cpu).length ≠ 0 := by omega
    have hget := List.get?_eq_get hidx
    have hval : linux_get_rxq t rxhash curr_cpu prev_cpu =
        (rxq_candidates t curr_cpu prev_cpu).get ⟨_, hidx⟩ := by
      simp only [linux_get_rxq]
      rw [if_pos hnz, hget, Option.getD_some]
    have hmem : linux_get_rxq t rxhash curr_cpu prev_cpu ∈
        rxq_candidates t curr_cpu prev_cpu := by
      rw [hval]; exact List.get_mem _ _ _
    refine ⟨by rw [hval, hget], ?_, ?_⟩
    · by_cases hp : 0 < prev_cpu ∧ prev_cpu ≤ t.nr_cpu_ids
      · simp only [rxq_candidates, if_pos hp] at hmem
        have h1 := (List.mem_filter.mp hmem).1
        have h2 := (List.mem_filter.mp h1).2
        simpa using h2
      · simp only [rxq_candidates, if_neg hp] at hmem
        have h2 := (List.mem_filter.mp hmem).2
        simpa using h2
    · intro hp
      simp only [rxq_candidates, if_pos hp] at hmem
      have h2 := (List.mem_filter.mp hmem).2
      simpa using h2

/-- C1 witness: concrete instantiation on `topoW` with flow hash 0,
current core 0 and no previous core. -/
theorem linux_get_rxq_spec_witness :
    (0 : Nat) < 2 ^ 32 ∧
    ((rxq_candidates topoW 0 0 = [] → linux_get_rxq topoW 0 0 0 = 0) ∧
     (rxq_candidates topoW 0 0 ≠ [] →
        (rxq_candidates topoW 0 0).get?
            (0 * (rxq_candidates topoW 0 0).length / 2 ^ 32) =
          some (linux_get_rxq topoW 0 0 0) ∧
        topoW.sibling 0 (linux_get_rxq topoW 0 0 0) = false ∧
        (0 < 0 ∧ 0 ≤ topoW.nr_cpu_ids →
          topoW.sibling (0 - 1) (linux_get_rxq topoW 0 0 0) = false))) :=
  ⟨by norm_num, linux_get_rxq_spec topoW 0 0 0 (by norm_num)⟩

/-- C7: `linux_xmit_segments` hands segments to transmission in list
order; when every per-segment transmission succeeds it transmits all of
them and returns 0; when segment `i` is the first to fail, segments
before `i` were transmitted (and are not rolled back), the error of
segment `i` is returned, and all segments after `i` are freed. -/
theorem linux_xmit_segments_spec {α : Type} (f : α → Int) (segs : List α) :
    ((∀ s ∈ segs, f s = 0) → linux_xmit_segments f segs = (0, segs, [])) ∧
    ∀ i, (hi : i < segs.length) → f (segs.get ⟨i, hi⟩) ≠ 0 →
      (∀ j, (hj : j < i) → f (segs.get ⟨j, Nat.lt_trans hj hi⟩) = 0) →
      linux_xmit_segments f segs =
        (f (segs.get ⟨i, hi⟩), segs.take i, segs.drop (i + 1)) := by
  induction segs with
  | nil =>
    refine ⟨fun _ => rfl, ?_⟩
    intro i hi
    exact absurd hi (by simp)
  | cons s rest ih =>
    constructor
    · intro hall
      have hs : f s = 0 := hall s (List.mem_cons_self s rest)
      simp only [linux_xmit_segments, if_pos hs]
      rw [ih.1 (fun x hx => hall x (List.mem_cons_of_mem s hx))]
    · intro i hi hfi hprev
      match i with
      | 0 =>
        have hs : f s ≠ 0 := hfi
        simp only [linux_xmit_segments, if_neg hs]
        simp
      | Nat.succ i =>
        have hs : f s = 0 := hprev 0 (Nat.succ_pos i)
        simp only [linux_xmit_segments, if_pos hs]
        have hi' : i < rest.length := Nat.lt_of_succ_lt_succ hi
        have hmain := ih.2 i hi' hfi
          (fun j hj => hprev (j + 1) (Nat.succ_lt_succ hj))
        rw [hmain]
        rfl

/-- C7 witness: a three-segment batch whose middle segment fails. -/
theorem linux_xmit_segments_spec_witness :
    ((∀ s ∈ [(10 : Nat), 11, 12],
        (fun n => if n = 11 then (-5 : Int) else 0) s = 0) →
      linux_xmit_segments (fun n => if n = 11 then (-5 : Int) else 0)
          [(10 : Nat), 11, 12] = (0, [10, 11, 12], [])) ∧
    ∀ i, (hi : i < [(10 : Nat), 11, 12].length) →
      (fun n => if n = 11 then (-5 : Int) else 0)
          ([(10 : Nat), 11, 12].get ⟨i, hi⟩) ≠ 0 →
      (∀ j, (hj : j < i) →
        (fun n => if n = 11 then (-5 : Int) else 0)
            ([(10 : Nat), 11, 12].get ⟨j, Nat.lt_trans hj hi⟩) = 0) →
      linux_xmit_segments (fun n => if n = 11 then (-5 : Int) else 0)
          [(10 : Nat), 11, 12] =
        ((fun n => if n = 11 then (-5 : Int) else 0)
            ([(10 : Nat), 11, 12].get ⟨i, hi⟩),
          [(10 : Nat), 11, 12].take i, [(10 : Nat), 11, 12].drop (i + 1)) :=
  linux_xmit_segments_spec (fun n => if n = 11 then (-5 : Int) else 0)
    [10, 11, 12]

/-- Closed-form behaviour of the `vr_napi_poll` dequeue loop for
`quota < budget`. -/
theorem napi_loop_spec {α : Type} (budget : Nat) (queue : List α) :
    ∀ quota : Nat, quota < budget →
    napi_loop budget quota queue =
      if queue.length < budget - quota then (quota + queue.length, queue, [])
      else (budget, queue.take (budget - quota), queue.drop (budget - quota)) := by
  induction queue with
  | nil =>
    intro quota h
    rw [if_pos (by simpa using Nat.sub_pos_of_lt h)]
    simp [napi_loop]
  | cons skb rest ih =>
    intro quota h
    simp only [napi_loop]
    by_cases hq : quota + 1 = budget
    · rw [if_pos hq]
      have h1 : budget - quota = 1 := by omega
      rw [h1, if_neg (by simp)]
      simp [hq]
    · rw [if_neg hq]
      have hlt : quota + 1 < budget := by omega
      rw [ih (quota + 1) hlt]
      by_cases hr : rest.length < budget - (quota + 1)
      · rw [if_pos hr, if_pos (by simp; omega)]
        simp
        omega
      · rw [if_neg hr, if_neg (by simp; omega)]
        have h2 : budget - quota = (budget - (quota + 1)) + 1 := by omega
        rw [h2]
        simp [List.take_succ_cons, List.drop_succ_cons]

/-- C8 counterexample: with budget 0 and one queued packet,
`vr_napi_poll` processes 1 packet, which is not at most the budget 0
(the `quota == budget` check only fires after an increment, so budget 0
drains the whole queue). -/
theorem vr_napi_poll_budget_counterexample :
    (vr_napi_poll 0 [(0 : Nat)]).2.2.1.length = 1 ∧
      ¬ (vr_napi_poll 0 [(0 : Nat)]).2.2.1.length ≤ 0 ∧
      (vr_napi_poll 0 [(0 : Nat)]).1 = 0 := by decide

/-- C8 amended: for every budget `B ≥ 1`, one `vr_napi_poll` invocation
processes at most `B` packets in FIFO order; it completes and returns 0
("queue drained") exactly when the queue empties before `B` packets have
been processed, and otherwise returns `B` after processing exactly `B`
packets, leaving the rest queued. -/
theorem vr_napi_poll_amended {α : Type} (budget : Nat) (queue : List α)
    (hb : 1 ≤ budget) :
    vr_napi_poll budget queue =
      if queue.length < budget then (0, true, queue, [])
      else (budget, false, queue.take budget, queue.drop budget) := by
  have hspec := napi_loop_spec budget queue 0 (by omega)
  simp only [Nat.sub_zero, Nat.zero_add] at hspec
  simp only [vr_napi_poll, hspec]
  by_cases hl : queue.length < budget
  · simp only [if_pos hl]
    have hne : queue.length ≠ budget := by omega
    simp [hne]
  · simp only [if_neg hl]
    simp

/-- C8 amended witness: budget 2 on a three-packet queue processes the
first two packets in order and reports "work remains". -/
theorem vr_napi_poll_amended_witness :
    1 ≤ 2 ∧
      vr_napi_poll 2 [(10 : Nat), 11, 12] =
        (if [(10 : Nat), 11, 12].length < 2 then (0, true, [10, 11, 12], [])
         else (2, false, [(10 : Nat), 11, 12].take 2,
               [(10 : Nat), 11, 12].drop 2)) :=
  ⟨by decide, vr_napi_poll_amended 2 [10, 11, 12] (by decide)⟩

/-- C9: the adjusted segment size of `linux_gso_xmit` equals the original
GSO size plus MAC and network header lengths, plus the TCP header length
exactly when the inner protocol is TCP (no transport addition otherwise,
in particular for UDP); whenever it exceeds `mtu + hard_header_len` the
GSO size used for segmentation is the original minus the overshoot,
additionally rounded down to a multiple of 8 for UDP; otherwise the GSO
size is unchanged.  (Hypotheses rule out 16-bit wrap-around, impossible
for real packets.) -/
theorem linux_gso_xmit_size_spec (p : GsoPkt) (mtu hhl : Nat)
    (hnowrap : p.gso_size + p.mac_len + p.net_hlen + p.tcp_doff * 4 < 2 ^ 16)
    (hover : gso_seg_size p ≤ mtu + hhl + p.gso_size) :
    gso_seg_size p =
        p.gso_size + p.mac_len + p.net_hlen +
          (if p.protocol = IPPROTO_TCP then p.tcp_doff * 4 else 0) ∧
    (mtu + hhl < gso_seg_size p →
        gso_adjusted_size p mtu hhl =
          (if p.protocol = IPPROTO_UDP then
            (p.gso_size - (gso_seg_size p - mtu - hhl)) / 8 * 8
          else p.gso_size - (gso_seg_size p - mtu - hhl))) ∧
    (¬ mtu + hhl < gso_seg_size p → gso_adjusted_size p mtu hhl = p.gso_size) := by
  have hs : gso_seg_size p =
      p.gso_size + p.mac_len + p.net_hlen +
        (if p.protocol = IPPROTO_TCP then p.tcp_doff * 4 else 0) := by
    simp only [gso_seg_size]
    by_cases hp : p.protocol = IPPROTO_TCP
    · rw [if_pos hp, if_pos hp,
        Nat.mod_eq_of_lt (by omega), Nat.mod_eq_of_lt (by omega)]
    · rw [if_neg hp, if_neg hp, Nat.mod_eq_of_lt (by omega)]
      omega
  refine ⟨hs, ?_, ?_⟩
  · intro hgt
    simp only [gso_adjusted_size]
    rw [if_pos hgt]
    have hd : gso_seg_size p - mtu - hhl ≤ p.gso_size := by omega
    have hss : gso_seg_size p < 2 ^ 16 := by
      rw [hs]; split <;> omega
    have heq : p.gso_size + (2 ^ 16 - (gso_seg_size p - mtu - hhl)) =
        2 ^ 16 + (p.gso_size - (gso_seg_size p - mtu - hhl)) := by omega
    rw [heq, Nat.add_mod_left, Nat.mod_eq_of_lt (by omega)]
  · intro hle
    simp only [gso_adjusted_size]
    rw [if_neg hle]

/-- C9 witness: a TCP GSO packet (gso 1400, mac 14, net 20, tcp 20) on a
device with MTU 1400 and 14-byte hard header. -/
theorem linux_gso_xmit_size_spec_witness :
    (gsoW.gso_size + gsoW.mac_len + gsoW.net_hlen + gsoW.tcp_doff * 4 < 2 ^ 16
      ∧ gso_seg_size gsoW ≤ 1400 + 14 + gsoW.gso_size) ∧
    (gso_seg_size gsoW =
        gsoW.gso_size + gsoW.mac_len + gsoW.net_hlen +
          (if gsoW.protocol = IPPROTO_TCP then gsoW.tcp_doff * 4 else 0) ∧
    (1400 + 14 < gso_seg_size gsoW →
        gso_adjusted_size gsoW 1400 14 =
          (if gsoW.protocol = IPPROTO_UDP then
            (gsoW.gso_size - (gso_seg_size gsoW - 1400 - 14)) / 8 * 8
          else gsoW.gso_size - (gso_seg_size gsoW - 1400 - 14))) ∧
    (¬ 1400 + 14 < gso_seg_size gsoW →
        gso_adjusted_size gsoW 1400 14 = gsoW.gso_size)) :=
  ⟨⟨by decide, by decide⟩,
    linux_gso_xmit_size_spec gsoW 1400 14 (by decide) (by decide)⟩

/-- C10: `linux_get_packet` fails with the invalid-packet drop reason
exactly when the tail, data or end offset does not fit its fixed-width
`vr_packet` field; on success `vp_tail`, `vp_data` and `vp_end` hold the
offsets exactly (no truncation), along with `vp_len = skb_headlen` and
the CHECKSUM_PARTIAL flag. -/
theorem linux_get_packet_spec (szTail szData szEnd : Nat) (skb : SkbView) :
    (linux_get_packet szTail szData szEnd skb = .error .invalid_packet ↔
      2 ^ (8 * szTail) ≤ skb.tail_off ∨ 2 ^ (8 * szData) ≤ skb.data_off ∨
        2 ^ (8 * szEnd) ≤ skb.end_off) ∧
    ∀ pkt, linux_get_packet szTail szData szEnd skb = .ok pkt →
      pkt.vp_tail = skb.tail_off ∧ pkt.vp_data = skb.data_off ∧
        pkt.vp_end = skb.end_off ∧ pkt.vp_len = skb.headlen ∧
        pkt.vp_flag_csum = skb.csum_offload := by
  constructor
  · unfold linux_get_packet
    split_ifs with h1 h2 h3 <;> simp_all
  · intro pkt h
    unfold linux_get_packet at h
    split_ifs at h with h1 h2 h3
    injection h with h
    subst h
    exact ⟨rfl, rfl, rfl, rfl, rfl⟩

/-- C10 witness: concrete in-range skb offsets with 2-byte fields. -/
theorem linux_get_packet_spec_witness :
    (linux_get_packet 2 2 2 skbW = .error .invalid_packet ↔
      2 ^ (8 * 2) ≤ skbW.tail_off ∨ 2 ^ (8 * 2) ≤ skbW.data_off ∨
        2 ^ (8 * 2) ≤ skbW.end_off) ∧
    ∀ pkt, linux_get_packet 2 2 2 skbW = .ok pkt →
      pkt.vp_tail = skbW.tail_off ∧ pkt.vp_data = skbW.data_off ∧
        pkt.vp_end = skbW.end_off ∧ pkt.vp_len = skbW.headlen ∧
        pkt.vp_flag_csum = skbW.csum_offload :=
  linux_get_packet_spec 2 2 2 skbW

/-- The stamping loop emits one header per segment. -/
theorem stamp_frags_length (csum : FragSeg → Nat → Nat → Nat → Nat)
    (ip_id : Nat) (fr : Bool) (segs : List FragSeg) :
    ∀ off, (stamp_frags csum ip_id fr off segs).length = segs.length := by
  induction segs with
  | nil => intro off; rfl
  | cons s rest ih => intro off; simp [stamp_frags, ih]

/-- Pointwise description of the header stamped for the `i`-th segment. -/
theorem stamp_frags_get? (csum : FragSeg → Nat → Nat → Nat → Nat)
    (ip_id : Nat) (fr : Bool) (segs : List FragSeg) :
    ∀ (off i : Nat) (h : FragHdr),
      (stamp_frags csum ip_id fr off segs).get? i = some h →
      ∃ s, segs.get? i = some s ∧
        h.ip_id = ip_id % 2 ^ 16 ∧
        h.mf = (decide (i + 1 < segs.length) || fr) ∧
        h.off_bytes = off + ((segs.take i).map seg_payload).sum ∧
        h.frag_field = h.off_bytes / 8 % 2 ^ 16 |||
          (if h.mf then 0x2000 else 0) ∧
        h.tot_len = (s.len - s.mac_len) % 2 ^ 16 ∧
        h.check = csum s h.ip_id h.frag_field h.tot_len := by
  induction segs with
  | nil =>
    intro off i h hget
    simp [stamp_frags] at hget
  | cons s rest ih =>
    intro off i h hget
    match i with
    | 0 =>
      simp only [stamp_frags, List.get?_cons_zero] at hget
      injection hget with hget
      subst hget
      refine ⟨s, rfl, rfl, ?_, by simp, rfl, rfl, rfl⟩
      cases rest <;> simp
    | Nat.succ i =>
      simp only [stamp_frags, List.get?_cons_succ] at hget
      obtain ⟨s', hs', h1, h2, h3, h4, h5, h6⟩ :=
        ih (off + seg_payload s) i h hget
      refine ⟨s', by simpa using hs', h1, ?_, ?_, h4, h5, h6⟩
      · rw [h2]
        congr 1
        simp [Nat.succ_lt_succ_iff]
      · rw [h3, List.take_succ_cons]
        simp
        omega

/-- C2: for every segment list stamped by the fragment loop of
`linux_inet_fragment` (with the original packet's IP id, MF flag and
starting byte offset): every fragment carries the original IP id; MF is
set on every fragment except the last, or on all fragments when the
original was itself already a fragment; the stamped byte offsets start at
the original offset and are contiguous and strictly increasing (each is
the previous plus the previous fragment's IP payload length); the wire
`frag_off` field is the 13-bit-shifted offset OR-ed with `IP_MF`; each
total length equals the segment length minus the MAC header length; and
the header checksum is recomputed (via `ip_fast_csum`, abstract `csum`)
over the updated header and stored.  Hypotheses: the original id fits 16
bits and each segment really contains its MAC+IP headers (true of every
`skb_segment` output). -/
theorem stamp_frags_spec (csum : FragSeg → Nat → Nat → Nat → Nat)
    (ip_id : Nat) (fragmented : Bool) (off0 : Nat) (segs : List FragSeg)
    (hid : ip_id < 2 ^ 16)
    (hpos : ∀ s ∈ segs, s.mac_len + s.ihl * 4 < s.len)
    (hsz : ∀ s ∈ segs, s.len - s.mac_len < 2 ^ 16) :
    (stamp_frags csum ip_id fragmented off0 segs).length = segs.length ∧
    (∀ i h, (stamp_frags csum ip_id fragmented off0 segs).get? i = some h →
        h.ip_id = ip_id ∧
        h.mf = (decide (i + 1 < segs.length) || fragmented) ∧
        h.off_bytes = off0 + ((segs.take i).map seg_payload).sum ∧
        h.frag_field = h.off_bytes / 8 % 2 ^ 16 |||
          (if h.mf then 0x2000 else 0) ∧
        ∀ s, segs.get? i = some s →
          h.tot_len = s.len - s.mac_len ∧
          h.check = csum s h.ip_id h.frag_field h.tot_len ∧
          0 < seg_payload s) ∧
    (∀ i h h' s,
        (stamp_frags csum ip_id fragmented off0 segs).get? i = some h →
        (stamp_frags csum ip_id fragmented off0 segs).get? (i + 1) = some h' →
        segs.get? i = some s →
        h'.off_bytes = h.off_bytes + seg_payload s ∧
        h.off_bytes < h'.off_bytes) := by
  have hmod : ip_id % 2 ^ 16 = ip_id := Nat.mod_eq_of_lt hid
  refine ⟨stamp_frags_length csum ip_id fragmented segs off0, ?_, ?_⟩
  · intro i h hget
    obtain ⟨s', hs', h1, h2, h3, h4, h5, h6⟩ :=
      stamp_frags_get? csum ip_id fragmented segs off0 i h hget
    have hmem : s' ∈ segs := List.get?_mem hs'
    refine ⟨by rw [h1, hmod], h2, h3, h4, ?_⟩
    intro s hs
    rw [hs'] at hs
    injection hs with hs
    subst hs
    refine ⟨by rw [h5, Nat.mod_eq_of_lt (hsz s' hmem)], h6, ?_⟩
    have := hpos s' hmem
    unfold seg_payload
    omega
  · intro i h h' s hget hget' hs
    obtain ⟨s1, hs1, _, _, h3, _, _, _⟩ :=
      stamp_frags_get? csum ip_id fragmented segs off0 i h hget
    obtain ⟨s2, _, _, _, h3', _, _, _⟩ :=
      stamp_frags_get? csum ip_id fragmented segs off0 (i + 1) h' hget'
    have hseq : s1 = s := Option.some.inj (hs1.symm.trans hs)
    rw [hseq] at hs1
    have hmem : s ∈ segs := List.get?_mem hs1
    have hs1' : segs[i]? = some s := by
      rw [← List.get?_eq_getElem?]
      exact hs1
    have hstep : ((segs.take (i + 1)).map seg_payload).sum =
        ((segs.take i).map seg_payload).sum + seg_payload s := by
      rw [List.take_succ, hs1']
      simp
    have hp : 0 < seg_payload s := by
      have := hpos s hmem
      unfold seg_payload
      omega
    constructor
    · rw [h3, h3', hstep]
      omega
    · rw [h3, h3', hstep]
      omega

/-- C2 witness: three standard Ethernet/IPv4 segments (1500-byte and
220-byte IP datagrams), id 42, not previously fragmented, offset 0. -/
theorem stamp_frags_spec_witness :
    (42 < 2 ^ 16 ∧ (∀ s ∈ segsW, s.mac_len + s.ihl * 4 < s.len) ∧
      ∀ s ∈ segsW, s.len - s.mac_len < 2 ^ 16) ∧
    ((stamp_frags csumZero 42 false 0 segsW).length = segsW.length ∧
    (∀ i h, (stamp_frags csumZero 42 false 0 segsW).get? i = some h →
        h.ip_id = 42 ∧
        h.mf = (decide (i + 1 < segsW.length) || false) ∧
        h.off_bytes = 0 + ((segsW.take i).map seg_payload).sum ∧
        h.frag_field = h.off_bytes / 8 % 2 ^ 16 |||
          (if h.mf then 0x2000 else 0) ∧
        ∀ s, segsW.get? i = some s →
          h.tot_len = s.len - s.mac_len ∧
          h.check = csumZero s h.ip_id h.frag_field h.tot_len ∧
          0 < seg_payload s) ∧
    (∀ i h h', ∀ s : FragSeg,
        (stamp_frags csumZero 42 false 0 segsW).get? i = some h →
        (stamp_frags csumZero 42 false 0 segsW).get? (i + 1) = some h' →
        segsW.get? i = some s →
        h'.off_bytes = h.off_bytes + seg_payload s ∧
        h.off_bytes < h'.off_bytes)) :=
  ⟨⟨by decide, by decide, by decide⟩,
    stamp_frags_spec csumZero 42 false 0 segsW (by decide) (by decide)
      (by decide)⟩

/-- C3 counterexample: MTU 42, MAC 14, IP header 20, payload 72 (a legal
call: the payload exceeds the MTU).  The computed fragment size is 8, so
the split is nine 8-byte fragments; the last fragment is 8 < 64 bytes
even though the total payload (72) is not smaller than 64, refuting the
claim that the last fragment is at least 64 bytes unless the payload is
smaller.  (The source comment itself concedes "we will get 8 bytes in the
worst case".) -/
theorem linux_frag_size_last_counterexample :
    42 < 72 ∧
    linux_frag_size 42 14 20 72 = 8 ∧
    frag_payloads (linux_frag_size 42 14 20 72) 72 =
      [8, 8, 8, 8, 8, 8, 8, 8, 8] ∧
    (frag_payloads (linux_frag_size 42 14 20 72) 72).getLast? = some 8 ∧
    ¬ 64 ≤ 8 ∧ 64 ≤ 72 := by decide

/-- C3 amended: the computed fragment size is always a multiple of 8, so
every fragment except the last is a multiple of 8 (they all equal the
fragment size) and the fragments partition the payload exactly; the
64-byte lower bound on the last fragment is only a heuristic: the
shrinking step does not guarantee it (see the counterexample), the code
only guarantees a multiple-of-8 fragment size. -/
theorem linux_frag_size_amended (mtu mac_len ip_hlen payload : Nat)
    (_hfs : linux_frag_size mtu mac_len ip_hlen payload ≠ 0) :
    8 ∣ linux_frag_size mtu mac_len ip_hlen payload ∧
    (frag_payloads (linux_frag_size mtu mac_len ip_hlen payload) payload).sum
      = payload ∧
    ∀ x ∈ (frag_payloads (linux_frag_size mtu mac_len ip_hlen payload)
        payload).dropLast, x = linux_frag_size mtu mac_len ip_hlen payload := by
  set fs := linux_frag_size mtu mac_len ip_hlen payload with hfsdef
  have h8 : ∀ n : Nat, 8 ∣ n / 8 * 8 := fun n => ⟨n / 8, Nat.mul_comm _ _⟩
  refine ⟨?_, ?_, ?_⟩
  · rw [hfsdef]
    simp only [linux_frag_size, frag_size0]
    split
    · exact h8 _
    · exact h8 _
  · have hdm := Nat.div_add_mod payload fs
    have hcomm : payload / fs * fs = fs * (payload / fs) := Nat.mul_comm _ _
    simp only [frag_payloads]
    by_cases hr : payload % fs ≠ 0
    · rw [if_pos hr]
      simp [List.sum_replicate, smul_eq_mul]
      omega
    · rw [if_neg hr]
      simp [List.sum_replicate, smul_eq_mul]
      omega
  · intro x hx
    simp only [frag_payloads] at hx
    by_cases hr : payload % fs ≠ 0
    · rw [if_pos hr, List.dropLast_concat] at hx
      exact List.eq_of_mem_replicate hx
    · rw [if_neg hr] at hx
      simp only [List.append_nil] at hx
      exact List.eq_of_mem_replicate (List.dropLast_subset _ hx)

/-- C3 amended witness: the counterexample inputs themselves (fragment
size 8): all fragments are multiples of 8 and sum to the payload. -/
theorem linux_frag_size_amended_witness :
    linux_frag_size 42 14 20 72 ≠ 0 ∧
    (8 ∣ linux_frag_size 42 14 20 72 ∧
     (frag_payloads (linux_frag_size 42 14 20 72) 72).sum = 72 ∧
     ∀ x ∈ (frag_payloads (linux_frag_size 42 14 20 72) 72).dropLast,
       x = linux_frag_size 42 14 20 72) :=
  ⟨by decide, linux_frag_size_amended 42 14 20 72 (by decide)⟩

/-- C4 counterexample: an IPOIP segment *larger* than `mtu +
hard_header_len` (claimed by the spec to receive the fix-up) is passed to
`linux_xmit` untouched, while an IPOIP segment that *fits* (claimed to be
passed onward without fix-up) does receive the new total length and fresh
IP id: the spec has the size condition inverted. -/
theorem linux_xmit_segment_fixup_counterexample :
    1500 + 14 < segBig.len ∧
    linux_xmit_segment envC4 1500 14 VrPktType.ipoip segBig =
      .toXmit segBig ∧
    segSmall.len ≤ 1500 + 14 ∧
    linux_xmit_segment envC4 1500 14 VrPktType.ipoip segSmall =
      .fixedXmit { segSmall with ip_len := (segSmall.len - ETH_HLEN) % 2 ^ 16,
                                 ip_id := 7 % 2 ^ 16 } := by decide

/-- C4 amended: the tunnel header/checksum fix-up (new total length,
fresh unique IP identifier, UDP/GRE checksum handling) is applied exactly
to segments that are *no larger* than the immediate link's MTU plus hard
header length and of the tunnel-over-IP type; all larger or non-tunnel
segments are passed onward to `linux_xmit` without the fix-up (oversized
tunnel segments are fragmented there first; the fix-up then runs on the
refragmented pieces). -/
theorem linux_xmit_segment_fixup_amended (env : XmitEnv) (mtu hhl : Nat)
    (ptype : VrPktType) (seg : Seg) :
    ((mtu + hhl < seg.len ∨ ptype ≠ VrPktType.ipoip) →
        linux_xmit_segment env mtu hhl ptype seg = .toXmit seg) ∧
    (seg.len ≤ mtu + hhl → ptype = VrPktType.ipoip →
        (∀ s, linux_xmit_segment env mtu hhl ptype seg ≠ .toXmit s) ∧
        ∀ s, linux_xmit_segment env mtu hhl ptype seg = .fixedXmit s →
          s.ip_len = (seg.len - ETH_HLEN) % 2 ^ 16 ∧
          s.ip_id = env.gen_ip_id % 2 ^ 16) := by
  constructor
  · intro hc
    simp only [linux_xmit_segment]
    rw [if_pos hc]
  · intro hlen htype
    have hc : ¬ (mtu + hhl < seg.len ∨ ptype ≠ VrPktType.ipoip) := by
      push_neg
      exact ⟨by omega, htype⟩
    simp only [linux_xmit_segment]
    rw [if_neg hc]
    constructor
    · intro s
      split_ifs <;> simp
    · intro s hs
      split_ifs at hs <;> (injection hs with hs; subst hs; simp)

/-- C4 amended witness: the small IPOIP segment from the counterexample
input set. -/
theorem linux_xmit_segment_fixup_amended_witness :
    ((1500 + 14 < segSmall.len ∨ VrPktType.ipoip ≠ VrPktType.ipoip) →
        linux_xmit_segment envC4 1500 14 VrPktType.ipoip segSmall =
          .toXmit segSmall) ∧
    (segSmall.len ≤ 1500 + 14 → VrPktType.ipoip = VrPktType.ipoip →
        (∀ s, linux_xmit_segment envC4 1500 14 VrPktType.ipoip segSmall ≠
            .toXmit s) ∧
        ∀ s, linux_xmit_segment envC4 1500 14 VrPktType.ipoip segSmall =
            .fixedXmit s →
          s.ip_len = (segSmall.len - ETH_HLEN) % 2 ^ 16 ∧
          s.ip_id = envC4.gen_ip_id % 2 ^ 16) :=
  linux_xmit_segment_fixup_amended envC4 1500 14 VrPktType.ipoip segSmall

/-- C5 (code-bug evidence): when `skb_segment` fails (here with
`-ENOMEM`), `linux_inet_fragment` returns the error but does *not* free
the original skb (`kfree_skb(skb)` is only reached after the `IS_ERR`
early return), and transmits nothing — contradicting the intended
"free the original packet and report allocation failure". -/
theorem linux_inet_fragment_seg_error_eval :
    (linux_inet_fragment envC5 skbC5).ret = -12 ∧
    (linux_inet_fragment envC5 skbC5).orig_freed = false ∧
    (linux_inet_fragment envC5 skbC5).xmit_segs = [] := ⟨rfl, rfl, rfl⟩

/-- C6 counterexample: a packet with CHECKSUM_PARTIAL set whose
`skb_checksum_help` fails is freed, yet `linux_inet_fragment` returns 0
— the caller observes success, so the failure is *not* reported as an
explicit error outcome; the loss is silent. -/
theorem linux_inet_fragment_csum_fail_counterexample :
    skbC6.csum_offload = true ∧
    envC6.csum_help_ok = false ∧
    (linux_inet_fragment envC6 skbC6).ret = 0 ∧
    (linux_inet_fragment envC6 skbC6).orig_freed = true ∧
    (linux_inet_fragment envC6 skbC6).xmit_segs = [] :=
  ⟨rfl, rfl, rfl, rfl, rfl⟩

/-- C6 amended: for every packet with the partial-checksum-offload flag
set whose checksum computation (`skb_checksum_help`) fails, the packet is
freed, no fragment is transmitted, and the function returns 0 — i.e. the
caller sees success, not an error: the drop is silent. -/
theorem linux_inet_fragment_csum_fail_amended (env : FragEnv) (skb : SkbIn)
    (h1 : skb.csum_offload = true) (h2 : env.csum_help_ok = false) :
    (linux_inet_fragment env skb).ret = 0 ∧
    (linux_inet_fragment env skb).orig_freed = true ∧
    (linux_inet_fragment env skb).xmit_segs = [] := by
  simp [linux_inet_fragment, h1, h2]

/-- C6 amended witness: the concrete failing-checksum input. -/
theorem linux_inet_fragment_csum_fail_amended_witness :
    (skbC6.csum_offload = true ∧ envC6.csum_help_ok = false) ∧
    ((linux_inet_fragment envC6 skbC6).ret = 0 ∧
     (linux_inet_fragment envC6 skbC6).orig_freed = true ∧
     (linux_inet_fragment envC6 skbC6).xmit_segs = []) :=
  ⟨⟨rfl, rfl⟩, linux_inet_fragment_csum_fail_amended envC6 skbC6 rfl rfl⟩

end VrHostInterface
